import Mathlib

/-!
Verification development for the legend-daq2lh5 raw-data conversion core.

The definitions below are a shallow embedding of the Python sources:
* `src/daq2lh5/raw_buffer.py` (RawBuffer, RawBufferList, expand_rblist_dict),
* `src/daq2lh5/data_decoder.py` (DataDecoder garbage sink),
* `src/daq2lh5/llama/llama_event_decoder.py` (LLAMAEventDecoder.decode_packet),
* `src/daq2lh5/orca/orca_fcio.py` (ORFCIOEventDecoder.decode_packet).

Modelling conventions: Python ints are `Int`/`Nat` (packet words are the
unsigned values delivered by `np.frombuffer`, i.e. `< 2^32`); in-place
mutation of buffers/tables is explicit state passing; a Python `raise` is an
explicit error value, with the mutations performed before the raise kept in
the returned state; LGDO tables are modelled by their allocated size plus a
log of cell writes (field name, row, value), since the code under study only
appends rows and the claims only observe cursors, sizes and written cells.
-/

set_option autoImplicit false

namespace Daq2LH5

/-! ### raw_buffer.py: RawBuffer -/

/-- A raw-buffer routing key: the Python code uses `int` or `str` keys. -/
inductive RBKey where
  | i (n : Int)
  | s (str : String)
deriving DecidableEq

/-- The LGDO attached to a `RawBuffer`, as observed by `raw_buffer.py`:
`RawBuffer.__len__` only asks whether the object has `__len__` and, if so,
for its length. `withLen n` is an LGDO (e.g. a `Table`) of allocated size
`n`; `noLen` is an object without `__len__` (the code then reports 1). -/
inductive Lgdo where
  | withLen (n : Nat)
  | noLen
deriving DecidableEq

/-- `RawBuffer.__init__` (raw_buffer.py lines 121-135): all attributes with
their default values; `loc = 0` and `fill_safety = 1` are always the
initial values. `proc_spec` is opaque to the claims and omitted. -/
structure RawBuffer where
  lgdo : Option Lgdo := none
  key_list : List RBKey := []
  out_stream : String := ""
  out_name : String := ""
  loc : Nat := 0
  fill_safety : Nat := 1
deriving DecidableEq

/-- `RawBuffer.__len__` (lines 137-142): 0 if no LGDO is attached, 1 if the
LGDO has no `__len__`, otherwise the LGDO's length. -/
def RawBuffer.length (rb : RawBuffer) : Nat :=
  match rb.lgdo with
  | none => 0
  | some (.withLen n) => n
  | some .noLen => 1

/-- `RawBuffer.is_full` (lines 144-145): `(len(self) - self.loc) < self.fill_safety`.
Python subtraction can go negative, so the comparison is over `Int`. -/
def RawBuffer.is_full (rb : RawBuffer) : Bool :=
  decide ((rb.length : Int) - (rb.loc : Int) < (rb.fill_safety : Int))

/-- A `RawBufferList` is a Python `list` of `RawBuffer`s. -/
abbrev RawBufferList := List RawBuffer

/-- `RawBufferList.clear_full` (lines 245-248): reset `loc` to 0 on every
buffer that currently reports full. -/
def RawBufferList.clear_full (rbl : RawBufferList) : RawBufferList :=
  rbl.map fun rb => if rb.is_full then { rb with loc := 0 } else rb

/-! ### raw_buffer.py: the keyed dict (key -> buffer routing index)

Python `dict`s keep insertion order; assignment to an existing key replaces
the value in place, assignment to a fresh key appends. We model a dict as an
association list with unique keys and mirror those two operations. -/

/-- Python `d[k] = v` on a dict modelled as an association list: replace the
(unique) existing entry in place, else append at the end. -/
def dictAssign {K V : Type} [DecidableEq K] : List (K × V) → K → V → List (K × V)
  | [], k, v => [(k, v)]
  | p :: rest, k, v => if p.1 = k then (k, v) :: rest else p :: dictAssign rest k v

/-- Python `d[k]` / `k in d`: look up the first (unique) entry for `k`. -/
def dictLookup {K V : Type} [DecidableEq K] : List (K × V) → K → Option V
  | [], _ => none
  | p :: rest, k => if p.1 = k then some p.2 else dictLookup rest k

/-- Python `d.pop(k)`: remove the entry for `k`. -/
def dictPop {K V : Type} [DecidableEq K] (d : List (K × V)) (k : K) : List (K × V) :=
  d.filter fun p => decide (p.1 ≠ k)

/-- The inner loop of `RawBufferList.get_keyed_dict` (lines 185-191): insert
one buffer under every key of its `key_list`. -/
def insertBufferKeys (d : List (RBKey × RawBuffer)) (rb : RawBuffer) :
    List (RBKey × RawBuffer) :=
  rb.key_list.foldl (fun acc key => dictAssign acc key rb) d

/-- `RawBufferList.get_keyed_dict` (lines 178-192): build the key->buffer
index by scanning the buffers in list order and assigning
`keyed_dict[key] = rb` for every key in each buffer's `key_list`. A
duplicate key only triggers `log.warning` (see
`RawBufferList.keyed_dict_warnings`); the assignment still happens, so the
later buffer wins. The lazy caching (`self.keyed_dict is None`) is
irrelevant to the result and not modelled. -/
def RawBufferList.get_keyed_dict (rbl : RawBufferList) : List (RBKey × RawBuffer) :=
  rbl.foldl insertBufferKeys []

/-- The duplicate-key warnings logged by `get_keyed_dict` (line 190): a key
is warned about each time it is inserted while already present. -/
def RawBufferList.keyed_dict_warnings (rbl : RawBufferList) : List RBKey :=
  (rbl.foldl
    (fun acc rb =>
      rb.key_list.foldl
        (fun acc2 key =>
          ((dictAssign acc2.1 key rb),
            if (dictLookup acc2.1 key).isSome then acc2.2 ++ [key] else acc2.2))
        acc)
    ([], [])).2

/-- Specification helper (for stating what `get_keyed_dict` computes): the
last buffer in the list whose `key_list` contains `k`, if any. -/
def lastBufferWith (k : RBKey) : RawBufferList → Option RawBuffer
  | [] => none
  | rb :: rest =>
    match lastBufferWith k rest with
    | some r => some r
    | none => if k ∈ rb.key_list then some rb else none

/-! ### raw_buffer.py: expand_rblist_dict (the key-list compiler) -/

/-- One entry of a config `key_list`: an integer key, a string key, or a
(still unexpanded) list of integers; a 2-element `lst` is range shorthand. -/
inductive KeyEntry where
  | int (n : Int)
  | str (s : String)
  | lst (l : List Int)
deriving DecidableEq

/-- Python `range(a, b + 1)` as a list of `Int` (empty when `b + 1 <= a`). -/
def rangeInc (a b : Int) : List Int :=
  (List.range (b + 1 - a).toNat).map fun (j : Nat) => a + (j : Int)

/-- The range-expansion loop of `expand_rblist_dict` (lines 384-391): every
entry that is a 2-element list `[a, b]` is replaced in place by
`range(a, b+1)`; the loop index then skips past the inserted elements, so
they are not re-examined. This recursion mirrors the source loop for ranges
with `a ≤ b`; for `a > b` the source's index bookkeeping steps backwards and
re-visits earlier entries, which no claim depends on. -/
def expandKeyList : List KeyEntry → List KeyEntry
  | [] => []
  | .lst l :: rest =>
    match l with
    | [a, b] => (rangeInc a b).map .int ++ expandKeyList rest
    | _ => .lst l :: expandKeyList rest
  | e :: rest => e :: expandKeyList rest

/-- Is this entry a 2-element list (i.e. range shorthand)? -/
def KeyEntry.isRange2 : KeyEntry → Bool
  | .lst [_, _] => true
  | _ => false

/-- The config-dict value for one buffer group. `key_list = none` models a
config entry with no `"key_list"` key (a setup error). `out_stream`,
`out_name` and `proc_spec` are carried along so that "a copy of the group's
settings" is meaningful; their contents are opaque to the key-list
compiler's first loop. -/
structure RBInfo where
  key_list : Option (List KeyEntry) := none
  out_stream : Option String := none
  out_name : Option String := none
  proc_spec : Option String := none
deriving DecidableEq

/-- Setup errors raised by the first loop of `expand_rblist_dict`. -/
inductive CfgError where
  | emptyName
  | missingKeyList (name : String)
deriving DecidableEq

/-- Does a buffer name contain the per-key placeholder (`"\x7bkey" in name`,
line 394)? -/
def hasKeyPlaceholder (name : String) : Bool :=
  decide ("\x7bkey".toList <:+: name.toList)

/-- The wildcard guard of lines 395-400: exactly one entry, a string
containing `*`. -/
def isWildcardSingleton (kl : List KeyEntry) : Bool :=
  match kl with
  | [.str s] => decide ("*".toList <:+: s.toList)
  | _ => false

/-- The body of the first `for name in buffer_names` loop of
`expand_rblist_dict` (lines 371-405) for one `name`. `fmt` stands for
Python's `name.format(key=key)` (an external string-formatting primitive).
The `dictLookup _ = none` branch is unreachable when iterating the original
names (processing a name never removes a different name). -/
def processName (fmt : String → KeyEntry → String)
    (config : List (String × RBInfo)) (name : String) :
    Except CfgError (List (String × RBInfo)) :=
  if name = "" then .error .emptyName
  else
    match dictLookup config name with
    | none => .ok config
    | some info =>
      match info.key_list with
      | none => .error (.missingKeyList name)
      | some kl =>
        let kl' := expandKeyList kl
        let info' := { info with key_list := some kl' }
        let config' := dictAssign config name info'
        if hasKeyPlaceholder name then
          if isWildcardSingleton kl' then .ok config'
          else
            .ok (dictPop
              (kl'.foldl
                (fun cfg k => dictAssign cfg (fmt name k) { info' with key_list := some [k] })
                config')
              name)
        else .ok config'

/-- The first loop of `expand_rblist_dict` (lines 370-405): iterate over a
snapshot of the original names (`buffer_names = list(config.keys())`), so
entries fanned out during the loop are not themselves re-processed. The
second loop (out-stream keyword/environment substitution, lines 408-423)
only rewrites `out_stream` strings and is outside the claims modelled here. -/
def expand_rblist_dict_names (fmt : String → KeyEntry → String)
    (config : List (String × RBInfo)) : Except CfgError (List (String × RBInfo)) :=
  (config.map Prod.fst).foldlM (fun cfg name => processName fmt cfg name) config

/-! ### data_decoder.py: the garbage sink -/

/-- One cell value written into an LGDO table: a scalar column entry or a
row of array data (waveform samples / raw packet bytes). -/
inductive CellVal where
  | scalar (n : Nat)
  | arr (ws : List Nat)
deriving DecidableEq

/-- One cell write `tbl[fname].nda[row] = val` (or the vector-of-vectors
row write for `packets`). -/
structure CellWrite where
  fname : String
  row : Nat
  val : CellVal
deriving DecidableEq

/-- An `lgdo.Table` as used by the garbage path of `DataDecoder`: its
allocated size, the set of field names added by `add_field`, a log of cell
writes (most recent first), and the row cursor `loc` advanced by
`push_row`. Accessing `tbl[f]` for a field name not in `fields` raises
`KeyError` in Python. -/
structure GarbageTable where
  size : Nat
  fields : List String
  writes : List CellWrite
  loc : Nat
deriving DecidableEq

/-- The Python error relevant here: `KeyError` from a missing table field. -/
inductive PyError where
  | keyError (k : String)
deriving DecidableEq

/-- `DataDecoder.__init__` (data_decoder.py lines 74-89): allocate the
garbage table with fields `packets` (VectorOfVectors sized by
`packet_size_guess`), `packet_id` and `garbage_code`. The shape guess only
sizes backing storage and is not otherwise observable. -/
def DataDecoder.garbage_table_init (garbage_length : Nat) (_packet_size_guess : Nat) :
    GarbageTable :=
  { size := garbage_length
    fields := ["packets", "packet_id", "garbage_code"]
    writes := []
    loc := 0 }

/-- `tbl[f] ... = v`: check the field exists (else `KeyError`), then record
the cell write. -/
def tableSetCell (t : GarbageTable) (f : String) (row : Nat) (v : CellVal) :
    Except PyError GarbageTable :=
  if t.fields.contains f then .ok { t with writes := ⟨f, row, v⟩ :: t.writes }
  else .error (.keyError f)

/-- `DataDecoder.put_in_garbage` (lines 245-251), statement by statement:
write the raw packet bytes to `packets` at `i_row = loc`, the packet id to
`packet_id`, the error code to `garbage_codes` (sic - the constructor named
the field `garbage_code`), then `push_row`. The returned table keeps all
mutations performed before a raise, and the error (if any) is returned
alongside it. -/
def DataDecoder.put_in_garbage (t : GarbageTable) (packet : List Nat)
    (packet_id code : Nat) : GarbageTable × Except PyError Unit :=
  let i_row := t.loc
  match tableSetCell t "packets" i_row (.arr packet) with
  | .error e => (t, .error e)
  | .ok t1 =>
    match tableSetCell t1 "packet_id" i_row (.scalar packet_id) with
    | .error e => (t1, .error e)
    | .ok t2 =>
      match tableSetCell t2 "garbage_codes" i_row (.scalar code) with
      | .error e => (t2, .error e)
      | .ok t3 => ({ t3 with loc := t3.loc + 1 }, .ok ())

/-! ### orca/orca_fcio.py: ORFCIOEventDecoder.decode_packet -/

/-- The FCIO record tags dispatched on by the ORCA FCIO decoders (from the
external `fcio.Tags` enumeration). -/
inductive FCIOTag where
  | config
  | status
  | event
  | sparseEvent
  | eventHeader
  | other (n : Int)
deriving DecidableEq

/-- One hardware-native sub-record yielded by the stream reader's record
iterator (`while fcio_stream.get_record()`), together with the fullness
flags the two nested decoders would report for it: `eventFull` is the
result of `FCEventDecoder.decode_packet` on this record, `fspFull` the
result of `FSPEventDecoder.decode_packet`. Both nested decoders are
external to this envelope function, so their per-record results are data
here. -/
structure FCIORecord where
  tag : FCIOTag
  eventFull : Bool
  fspFull : Bool
deriving DecidableEq

/-- `ORFCIOEventDecoder.decode_packet` (orca_fcio.py lines 371-389):
`any_full` starts false; for every record whose tag is `Event` or
`SparseEvent`, or-in the primary event decoder's result and, when the fsp
(secondary summary) decoder is enabled (`self.fsp_decoder is not None`),
the fsp decoder's result; finally return `any_full`. -/
def ORFCIOEventDecoder.decode_packet (fsp_enabled : Bool)
    (records : List FCIORecord) : Bool :=
  records.foldl
    (fun any_full r =>
      if r.tag = .event ∨ r.tag = .sparseEvent then
        let af := any_full || r.eventFull
        if fsp_enabled then af || r.fspFull else af
      else any_full)
    false

/-! ### llama/llama_event_decoder.py: LLAMAEventDecoder.decode_packet

The packet is the list of 32-bit words `evt_data_32` delivered by
`np.frombuffer(packet, dtype=np.uint32)` (each word `< 2^32`); the 16-bit
view `evt_data_16` of the same bytes is the little-endian half-word
flattening. A numpy out-of-bounds scalar read raises `IndexError`; slice
reads clamp. The destination `RawBuffer`'s LGDO table is modelled by its
allocated size plus a write log (see `CellWrite`); the buffer cursor `loc`
and `fill_safety` mirror `raw_buffer.py`. -/

/-- The errors `decode_packet` can raise. `sizeMismatch` records the raw
and averaged sample counts and the expected length from the message. -/
inductive LlamaError where
  | corruption1
  | corruption2
  | mawTest
  | sizeMismatch (raw16 avg16 : Nat) (expected : Int)
  | internalError
  | indexError
deriving DecidableEq

/-- Which errors the spec's taxonomy (section 7) classifies as protocol
corruption: "unexpected tag/constant" (the two `Data corruption!` raises)
and "sample-count mismatch" (the `Waveform sizes ...` raise). The
MAW-test raise is an unsupported-feature error and the final
`I messed up...` raise an internal consistency error; neither is a
corruption of the declared kind. -/
def LlamaError.isCorruption : LlamaError → Bool
  | .corruption1 => true
  | .corruption2 => true
  | .sizeMismatch _ _ _ => true
  | _ => false

/-- The destination buffer as used by the llama decoder: `tableSize` is the
allocated length of `rb.lgdo`, `writes` the cell-write log of that table. -/
structure LlamaBuffer where
  tableSize : Nat
  writes : List CellWrite
  loc : Nat
  fill_safety : Nat
deriving DecidableEq

/-- `RawBuffer.is_full` for a llama destination buffer (same formula as
`RawBuffer.is_full`). -/
def LlamaBuffer.is_full (b : LlamaBuffer) : Bool :=
  decide ((b.tableSize : Int) - (b.loc : Int) < (b.fill_safety : Int))

/-- Append one cell write (`tbl[f].nda[row] = v` etc.). -/
def LlamaBuffer.write (b : LlamaBuffer) (f : String) (row : Nat) (v : CellVal) :
    LlamaBuffer :=
  { b with writes := ⟨f, row, v⟩ :: b.writes }

/-- The 16-bit view `evt_data_16` of the packet words, little-endian. -/
def evtData16 (ws : List Nat) : List Nat :=
  ws.flatMap fun w => [w % 65536, (w / 65536) % 65536]

/-- A decode stage result: the buffer state so far (mutations before a
raise persist) together with either a value or the raised error. -/
inductive StageRes (α : Type) where
  | ok (buf : LlamaBuffer) (a : α)
  | err (buf : LlamaBuffer) (e : LlamaError)
deriving DecidableEq

/-- Sequence two stages. -/
def StageRes.bind {α β : Type} (r : StageRes α)
    (k : LlamaBuffer → α → StageRes β) : StageRes β :=
  match r with
  | .ok b a => k b a
  | .err b e => .err b e

/-- A numpy scalar read `arr[i]`: `IndexError` when out of bounds; the
buffer mutations made so far persist. -/
def withRead {α : Type} (r : Option Nat) (buf : LlamaBuffer)
    (k : Nat → StageRes α) : StageRes α :=
  match r with
  | some w => k w
  | none => .err buf .indexError

/-- The `format_bits & 0x1` block (lines 157-167): peak/information/6
accumulator sums; consumes 7 words of header (`offset += 7`). -/
def block1 (p evt16 : List Nat) (ii offset : Nat) (buf : LlamaBuffer) : StageRes Nat :=
  withRead (evt16.get? 4) buf fun a4 =>
  let buf := buf.write "peakHighValue" ii (.scalar a4)
  withRead (evt16.get? 5) buf fun a5 =>
  let buf := buf.write "peakHighIndex" ii (.scalar a5)
  withRead (p.get? (offset + 1)) buf fun w1 =>
  let buf := buf.write "information" ii (.scalar ((w1 >>> 24) &&& 0xff))
  withRead (p.get? (offset + 2)) buf fun s1 =>
  let buf := buf.write "accSum1" ii (.scalar s1)
  withRead (p.get? (offset + 3)) buf fun s2 =>
  let buf := buf.write "accSum2" ii (.scalar s2)
  withRead (p.get? (offset + 4)) buf fun s3 =>
  let buf := buf.write "accSum3" ii (.scalar s3)
  withRead (p.get? (offset + 5)) buf fun s4 =>
  let buf := buf.write "accSum4" ii (.scalar s4)
  withRead (p.get? (offset + 6)) buf fun s5 =>
  let buf := buf.write "accSum5" ii (.scalar s5)
  withRead (p.get? (offset + 7)) buf fun s6 =>
  .ok (buf.write "accSum6" ii (.scalar s6)) (offset + 7)

/-- The `format_bits & 0x2` block (lines 168-171): accumulators 7 and 8. -/
def block2 (p : List Nat) (ii offset : Nat) (buf : LlamaBuffer) : StageRes Nat :=
  withRead (p.get? (offset + 0)) buf fun s7 =>
  let buf := buf.write "accSum7" ii (.scalar s7)
  withRead (p.get? (offset + 1)) buf fun s8 =>
  .ok (buf.write "accSum8" ii (.scalar s8)) (offset + 2)

/-- The `format_bits & 0x4` block (lines 172-176): moving-average-window
statistics. -/
def block3 (p : List Nat) (ii offset : Nat) (buf : LlamaBuffer) : StageRes Nat :=
  withRead (p.get? (offset + 0)) buf fun m1 =>
  let buf := buf.write "mawMax" ii (.scalar m1)
  withRead (p.get? (offset + 1)) buf fun m2 =>
  let buf := buf.write "mawBefore" ii (.scalar m2)
  withRead (p.get? (offset + 2)) buf fun m3 =>
  .ok (buf.write "mawAfter" ii (.scalar m3)) (offset + 3)

/-- The `format_bits & 0x8` block (lines 177-180): energy pair. -/
def block4 (p : List Nat) (ii offset : Nat) (buf : LlamaBuffer) : StageRes Nat :=
  withRead (p.get? (offset + 0)) buf fun e1 =>
  let buf := buf.write "startEnergy" ii (.scalar e1)
  withRead (p.get? (offset + 1)) buf fun e2 =>
  .ok (buf.write "maxEnergy" ii (.scalar e2)) (offset + 2)

/-- Lines 156-180: the four optional sub-record blocks, toggled by the
format bits in fixed order, starting from `offset = 2`; returns the word
offset of the trailer word. -/
def llamaBlocks (p evt16 : List Nat) (ii format_bits : Nat) (buf : LlamaBuffer) :
    StageRes Nat :=
  (if format_bits &&& 0x1 ≠ 0 then block1 p evt16 ii 2 buf else .ok buf 2).bind
    fun buf offset =>
  (if format_bits &&& 0x2 ≠ 0 then block2 p ii offset buf else .ok buf offset).bind
    fun buf offset =>
  (if format_bits &&& 0x4 ≠ 0 then block3 p ii offset buf else .ok buf offset).bind
    fun buf offset =>
  if format_bits &&& 0x8 ≠ 0 then block4 p ii offset buf else .ok buf offset

/-- Lines 146-180 of `decode_packet`: read the two header words, write
`fch_id` / `packet_id` / `timestamp` at row `ii = loc`, then run the four
optional sub-record blocks. Line 151's timestamp is computed on `np.uint32`
scalars, so the shift of the masked word is 32-bit arithmetic and wraps to
0 (the masked bits 16-31 are shifted out of the word entirely), as is the
following addition - modelled by the explicit `% 2^32` reductions; in
effect only the low timestamp word survives. Likewise the `fch_id` and
`packet_id` writes land in `uint32` columns, which truncate mod `2^32`. -/
def llamaHeaderStage (p evt16 : List Nat) (buf0 : LlamaBuffer)
    (packet_id fch_id : Nat) : StageRes Nat :=
  withRead (p.get? 0) buf0 fun w0 =>
  withRead (p.get? 1) buf0 fun w1 =>
  let timestamp := ((((w0 &&& 0xffff0000) <<< 16) % 4294967296) + w1) % 4294967296
  let format_bits := w0 &&& 0xf
  let ii := buf0.loc
  let buf := ((buf0.write "fch_id" ii (.scalar (fch_id % 4294967296))).write
    "packet_id" ii (.scalar (packet_id % 4294967296))).write "timestamp" ii
    (.scalar timestamp)
  llamaBlocks p evt16 ii format_bits buf

/-- Lines 203-232: the MAW-test guard, the sample-count invariant check,
the waveform copies and the final cursor advance. `postOffset` is the word
offset just past the trailer word(s); `raw_length_32` / `avg_length_32` are
the declared 32-bit word counts; `maw_test_flag` is trailer bit 27. -/
def llamaTailStage (p evt16 : List Nat) (ii : Nat) (buf : LlamaBuffer)
    (postOffset raw_length_32 avg_length_32 maw_test_flag : Nat) : StageRes Bool :=
  if maw_test_flag ≠ 0 then .err buf .mawTest
  else
    let raw_length_16 := 2 * raw_length_32
    let avg_length_16 := 2 * avg_length_32
    let header_length_16 := postOffset * 2
    let expected_wf_length : Int := (evt16.length : Int) - (header_length_16 : Int)
    if ((raw_length_16 + avg_length_16 : Nat) : Int) ≠ expected_wf_length then
      .err buf (.sizeMismatch raw_length_16 avg_length_16 expected_wf_length)
    else
      let st1 :=
        if raw_length_16 > 0 then
          ((buf.write "waveform.values" ii
              (.arr ((evt16.drop (postOffset * 2)).take raw_length_16))),
            postOffset + raw_length_32)
        else (buf, postOffset)
      let buf := st1.1
      let offset := st1.2
      let st2 :=
        if avg_length_16 > 0 then
          ((buf.write "auxwaveform.values" ii
              (.arr ((evt16.drop (offset * 2)).take avg_length_16))),
            offset + avg_length_32)
        else (buf, offset)
      let buf := st2.1
      let offset := st2.2
      if offset ≠ p.length then .err buf .internalError
      else
        let buf := { buf with loc := buf.loc + 1 }
        .ok buf buf.is_full

/-- Lines 182-232: trailer word (26-bit raw word count, status bit 26, MAW
bit 27, tag nibble in bits 28-31), the two `Data corruption!` tag checks,
the optional second (averaged-data) trailer word, then `llamaTailStage`. -/
def llamaTrailerStage (p evt16 : List Nat) (ii : Nat) (buf : LlamaBuffer)
    (offset : Nat) : StageRes Bool :=
  withRead (p.get? offset) buf fun tw =>
  let raw_length_32 := tw &&& 0x03ffffff
  let maw_test_flag := (tw &&& 0x08000000) >>> 27
  if tw &&& 0xf0000000 = 0xe0000000 then
    llamaTailStage p evt16 ii buf (offset + 1) raw_length_32 0 maw_test_flag
  else if tw &&& 0xf0000000 = 0xa0000000 then
    withRead (p.get? (offset + 1)) buf fun tw2 =>
    let avg_length_32 := tw2 &&& 0x0000ffff
    if tw2 &&& 0xf0000000 ≠ 0xe0000000 then .err buf .corruption2
    else llamaTailStage p evt16 ii buf (offset + 2) raw_length_32 avg_length_32
      maw_test_flag
  else .err buf .corruption1

/-- The routed part of `LLAMAEventDecoder.decode_packet` (lines 142-232):
decode one SIS3316 event packet into the destination buffer, returning the
mutated buffer and either the `is_full` flag or the raised error.
(`status_flag`, bit 26, is extracted by the source but never used.) -/
def decodeLlamaEvent (p : List Nat) (buf0 : LlamaBuffer)
    (packet_id fch_id : Nat) : StageRes Bool :=
  let evt16 := evtData16 p
  (llamaHeaderStage p evt16 buf0 packet_id fch_id).bind fun buf offset =>
  llamaTrailerStage p evt16 buf0.loc buf offset

/-- The decoder/buffer state visible to `decode_packet`: the keyed buffer
dict `evt_rbkd` and the decoder's `skipped_channels` counters. -/
structure LlamaDecodeState where
  rbkd : List (Nat × LlamaBuffer)
  skipped_channels : List (Nat × Nat)
deriving DecidableEq

deriving instance DecidableEq for Except

/-- The output of one `decode_packet` call: the new state, the channel ids
for which a `Skipping channel` diagnostic was logged by this call, and the
returned flag or raised error. -/
structure LlamaDecodeOut where
  state : LlamaDecodeState
  logged : List Nat
  result : Except LlamaError Bool
deriving DecidableEq

/-- `LLAMAEventDecoder.decode_packet` (lines 119-232): if `fch_id` has no
destination buffer in `evt_rbkd`, initialize its skip counter to 0 on first
sight (logging the diagnostic exactly then), increment it, and return
`False`; otherwise decode into the destination buffer (which is mutated in
place, also when an error is raised). -/
def LLAMAEventDecoder.decode_packet (p : List Nat) (st : LlamaDecodeState)
    (packet_id fch_id : Nat) : LlamaDecodeOut :=
  match dictLookup st.rbkd fch_id with
  | none =>
    let fresh := (dictLookup st.skipped_channels fch_id).isNone
    let sk1 := if fresh then dictAssign st.skipped_channels fch_id 0
      else st.skipped_channels
    let sk2 := dictAssign sk1 fch_id ((dictLookup sk1 fch_id).getD 0 + 1)
    { state := { st with skipped_channels := sk2 }
      logged := if fresh then [fch_id] else []
      result := .ok false }
  | some buf =>
    match decodeLlamaEvent p buf packet_id fch_id with
    | .ok buf' full =>
      { state := { st with rbkd := dictAssign st.rbkd fch_id buf' }
        logged := []
        result := .ok full }
    | .err buf' e =>
      { state := { st with rbkd := dictAssign st.rbkd fch_id buf' }
        logged := []
        result := .error e }

/-! Specification-side helpers for stating the llama claims: the trailer
position and declared counts, recomputed directly from the packet words. -/

/-- The header offset (position of the first trailer word) determined by
the format bits: `2 + 7?b0 + 2?b1 + 3?b2 + 2?b3`, mirroring the `offset`
increments of the four blocks. -/
def hdrOffsetBits (format_bits : Nat) : Nat :=
  let o := 2
  let o := if format_bits &&& 0x1 ≠ 0 then o + 7 else o
  let o := if format_bits &&& 0x2 ≠ 0 then o + 2 else o
  let o := if format_bits &&& 0x4 ≠ 0 then o + 3 else o
  if format_bits &&& 0x8 ≠ 0 then o + 2 else o

/-- The header offset determined by the format bits of word 0. -/
def hdrOffset32 (w0 : Nat) : Nat :=
  hdrOffsetBits (w0 &&& 0xf)

/-- The header offset of a packet (word 0 read with default 0; all claims
require the packet to at least contain its trailer, which forces word 0 to
exist). -/
def hdrOffset (p : List Nat) : Nat :=
  hdrOffset32 (p.headD 0)

/-- Does the packet get past both trailer-tag checks: the first trailer
word exists and carries one of the two reserved tag nibbles (`0xE` = no
averaged data, `0xA` = averaged data follows), and in the averaged case the
second trailer word exists and carries tag `0xE`. -/
def acceptedPastTagChecks (p : List Nat) : Bool :=
  match p.get? (hdrOffset p) with
  | none => false
  | some w =>
    if w &&& 0xf0000000 = 0xe0000000 then true
    else if w &&& 0xf0000000 = 0xa0000000 then
      match p.get? (hdrOffset p + 1) with
      | some w2 => decide (w2 &&& 0xf0000000 = 0xe0000000)
      | none => false
    else false

/-- Is the trailer's MAW-test flag (bit 27) set? -/
def mawTestFlagSet (p : List Nat) : Bool :=
  match p.get? (hdrOffset p) with
  | some w => decide (w &&& 0x08000000 ≠ 0)
  | none => false

/-- Word offset just past the trailer word(s). -/
def postHdrOffset (p : List Nat) : Nat :=
  match p.get? (hdrOffset p) with
  | some w => if w &&& 0xf0000000 = 0xa0000000 then hdrOffset p + 2 else hdrOffset p + 1
  | none => hdrOffset p + 1

/-- The declared payload length in 16-bit words: raw count plus averaged
count, each doubled (the header counts 32-bit words, samples are 16-bit). -/
def declaredLen16 (p : List Nat) : Nat :=
  match p.get? (hdrOffset p) with
  | none => 0
  | some w =>
    let raw32 := w &&& 0x03ffffff
    let avg32 :=
      if w &&& 0xf0000000 = 0xa0000000 then
        ((p.get? (hdrOffset p + 1)).getD 0) &&& 0x0000ffff
      else 0
    2 * raw32 + 2 * avg32

/-- The number of 16-bit words remaining in the payload after the header
and trailer word(s). -/
def remaining16 (p : List Nat) : Int :=
  (2 * p.length : Int) - (2 * postHdrOffset p : Int)

/-- `b'` is `b` with (at most) more cell writes: cursor, capacity and
safety margin agree. Decoding never touches these except the final cursor
advance. -/
def SameCursor (b b' : LlamaBuffer) : Prop :=
  b'.tableSize = b.tableSize ∧ b'.loc = b.loc ∧ b'.fill_safety = b.fill_safety

/-! ### Concrete fixtures used by counterexamples and witnesses -/

/-- A buffer of capacity 2 whose cursor sits exactly at
`capacity - fill_safety = 1`. -/
def rbAtMargin : RawBuffer :=
  { lgdo := some (.withLen 2), loc := 1 }

/-- A buffer of capacity 2 whose cursor sits at `loc = 2`. -/
def rbFull : RawBuffer :=
  { lgdo := some (.withLen 2), loc := 2 }

/-- Two distinct buffers that both claim key 5. -/
def kbuf1 : RawBuffer := { key_list := [.i 5], out_name := "a" }

/-- See `kbuf1`. -/
def kbuf2 : RawBuffer := { key_list := [.i 5], out_name := "b" }

/-- A concrete stand-in for Python's `name.format(key=key)`. -/
def fmtFix : String → KeyEntry → String :=
  fun _ k => match k with | .int 1 => "g1" | _ => "g2"

/-- A concrete buffer-group config entry with two integer keys. -/
def infoFix : RBInfo :=
  { key_list := some [.int 1, .int 2], out_stream := some "f.lh5" }

/-- A llama destination buffer with room for 10 rows. -/
def llamaBuf10 : LlamaBuffer :=
  { tableSize := 10, writes := [], loc := 0, fill_safety := 1 }

/-- A decode state routing channel 7 to `llamaBuf10`. -/
def llamaSt0 : LlamaDecodeState :=
  { rbkd := [(7, llamaBuf10)], skipped_channels := [] }

/-- A decode state with no routed channels. -/
def llamaStEmpty : LlamaDecodeState :=
  { rbkd := [], skipped_channels := [] }

/-- Format bits 0, trailer tag `0xE` with MAW-test bit 27 set and a
declared raw word count of 1, but no payload words: the declared length
(2 half-words) disagrees with the remaining payload (0 half-words). -/
def llamaMawPacket : List Nat := [0, 0, 0xE8000001]

/-- Format bits 0, trailer tag nibble `0x5`: neither reserved constant. -/
def llamaBadTagPacket : List Nat := [0, 0, 0x50000001]

/-- A well-formed packet: no optional blocks, tag `0xE`, one raw waveform
word (two 16-bit samples). -/
def llamaGoodPacket : List Nat := [0, 0, 0xE0000001, 0x00050006]

/-! ## Theorems -/

/-! ### Association-list dictionary lemmas -/

theorem dictLookup_dictAssign {K V : Type} [DecidableEq K]
    (d : List (K × V)) (k k' : K) (v : V) :
    dictLookup (dictAssign d k v) k' = if k' = k then some v else dictLookup d k' := by
  induction d with
  | nil =>
    by_cases h : k' = k
    · simp [dictAssign, dictLookup, h]
    · simp [dictAssign, dictLookup, h, Ne.symm h]
  | cons p rest ih =>
    by_cases hp : p.1 = k
    · by_cases h : k' = k
      · simp [dictAssign, dictLookup, hp, h]
      · simp [dictAssign, dictLookup, hp, h, Ne.symm h]
    · by_cases h2 : p.1 = k'
      · have h' : k' ≠ k := fun hh => hp (h2.trans hh)
        simp [dictAssign, dictLookup, hp, h2, h']
      · simp [dictAssign, dictLookup, hp, h2, ih]

theorem dictLookup_append_of_none {K V : Type} [DecidableEq K]
    (d d' : List (K × V)) (k : K) (h : dictLookup d k = none) :
    dictLookup (d ++ d') k = dictLookup d' k := by
  induction d with
  | nil => simp
  | cons p rest ih =>
    by_cases hp : p.1 = k
    · simp [dictLookup, hp] at h
    · simp only [dictLookup, hp, if_neg] at h ⊢
      simp [dictLookup, hp, ih h]

theorem dictAssign_of_none {K V : Type} [DecidableEq K]
    (d : List (K × V)) (k : K) (v : V) (h : dictLookup d k = none) :
    dictAssign d k v = d ++ [(k, v)] := by
  induction d with
  | nil => simp [dictAssign]
  | cons p rest ih =>
    by_cases hp : p.1 = k
    · simp [dictLookup, hp] at h
    · simp only [dictLookup, hp, if_neg] at h
      simp [dictAssign, hp, ih h]

theorem dictLookup_insertKeys (d : List (RBKey × RawBuffer)) (ks : List RBKey)
    (rb : RawBuffer) (k : RBKey) :
    dictLookup (ks.foldl (fun acc key => dictAssign acc key rb) d) k =
      if k ∈ ks then some rb else dictLookup d k := by
  induction ks generalizing d with
  | nil => simp
  | cons key ks ih =>
    simp only [List.foldl_cons]
    rw [ih]
    by_cases hk : k ∈ ks
    · simp [hk]
    · by_cases hke : k = key
      · simp [hk, hke, dictLookup_dictAssign]
      · simp [hk, hke, dictLookup_dictAssign]

theorem dictLookup_keyed_foldl (rbl : RawBufferList) (d : List (RBKey × RawBuffer))
    (k : RBKey) :
    dictLookup (rbl.foldl insertBufferKeys d) k =
      match lastBufferWith k rbl with
      | some r => some r
      | none => dictLookup d k := by
  induction rbl generalizing d with
  | nil => simp [lastBufferWith]
  | cons rb rest ih =>
    simp only [List.foldl_cons, lastBufferWith]
    rw [ih]
    cases lastBufferWith k rest with
    | some r => simp
    | none =>
      simp only [insertBufferKeys, dictLookup_insertKeys]
      by_cases hk : k ∈ rb.key_list <;> simp [hk]

/-- **C4, counterexample.** Two buffers both list key 5. Building the
routing index does not fail: `get_keyed_dict` silently routes the
duplicated key to the second buffer (only a warning is recorded for the
log), contradicting the claim that setup fails on duplicate key routing. -/
theorem duplicate_key_counterexample :
    RawBufferList.get_keyed_dict [kbuf1, kbuf2] = [(.i 5, kbuf2)] ∧
    RawBufferList.keyed_dict_warnings [kbuf1, kbuf2] = [.i 5] ∧
    kbuf1 ≠ kbuf2 := by
  decide

/-- **C4, amended.** `RawBufferList.get_keyed_dict` never fails. For every
buffer list and key, the routing index maps the key to the *last* buffer in
the list whose `key_list` contains it (`lastBufferWith`): when key lists
overlap, each later assignment overwrites the earlier one and only a
warning is logged. -/
theorem keyed_dict_last_wins (rbl : RawBufferList) (k : RBKey) :
    dictLookup (RawBufferList.get_keyed_dict rbl) k = lastBufferWith k rbl := by
  rw [RawBufferList.get_keyed_dict, dictLookup_keyed_foldl]
  cases lastBufferWith k rbl <;> simp [dictLookup]

/-- **C10.** A `RawBuffer` constructed without an LGDO (`lgdo=None`, the
default) has length 0, cursor 0, and already reports full:
`(0 - 0) < fill_safety = 1`. The other constructor arguments are
irrelevant. -/
theorem fresh_buffer_reports_full (kl : List RBKey) (os onm : String) :
    (RawBuffer.mk none kl os onm 0 1).length = 0 ∧
    (RawBuffer.mk none kl os onm 0 1).loc = 0 ∧
    (RawBuffer.mk none kl os onm 0 1).is_full = true := by
  exact ⟨rfl, rfl, rfl⟩

/-- **C5 (code bug).** `DataDecoder.__init__` names the error-code field
`garbage_code`, but `put_in_garbage` writes to `garbage_codes`; on the
default-constructed decoder, diverting any packet to the garbage sink
raises `KeyError('garbage_codes')` after writing the packet bytes and
packet id, and the garbage row cursor is never advanced. -/
theorem put_in_garbage_keyerror :
    (DataDecoder.put_in_garbage (DataDecoder.garbage_table_init 256 1024) [171] 0 1).2
      = .error (.keyError "garbage_codes") ∧
    (DataDecoder.put_in_garbage (DataDecoder.garbage_table_init 256 1024) [171] 0 1).1.loc
      = 0 ∧
    (DataDecoder.garbage_table_init 256 1024).fields
      = ["packets", "packet_id", "garbage_code"] := by
  decide

/-! ### C6: the ORCA FCIO envelope's any-full aggregation -/

/-- The contribution of one record to `any_full`. -/
def fcioRecordFull (fsp_enabled : Bool) (r : FCIORecord) : Bool :=
  decide (r.tag = .event ∨ r.tag = .sparseEvent) &&
    (r.eventFull || (fsp_enabled && r.fspFull))

theorem fcio_foldl_or (fsp_enabled : Bool) (records : List FCIORecord) (b : Bool) :
    records.foldl
      (fun any_full r =>
        if r.tag = .event ∨ r.tag = .sparseEvent then
          let af := any_full || r.eventFull
          if fsp_enabled then af || r.fspFull else af
        else any_full)
      b = (b || records.any (fcioRecordFull fsp_enabled)) := by
  induction records generalizing b with
  | nil => simp
  | cons r rest ih =>
    rw [List.foldl_cons, ih, List.any_cons]
    by_cases h : r.tag = .event ∨ r.tag = .sparseEvent
    · cases fsp_enabled <;> simp [h, fcioRecordFull, Bool.or_assoc]
    · simp [h, fcioRecordFull]

/-- **C6.** `ORFCIOEventDecoder.decode_packet` returns true iff at least
one sub-record of the envelope whose tag is `Event` or `SparseEvent` made a
nested dispatch report its target buffer full: the primary event decoder's
dispatch, or - when the fsp summary decoder is enabled - the fsp
decoder's dispatch. -/
theorem orfcio_event_any_full_iff (fsp_enabled : Bool) (records : List FCIORecord) :
    ORFCIOEventDecoder.decode_packet fsp_enabled records = true ↔
      ∃ r ∈ records, (r.tag = .event ∨ r.tag = .sparseEvent) ∧
        (r.eventFull = true ∨ (fsp_enabled = true ∧ r.fspFull = true)) := by
  rw [ORFCIOEventDecoder.decode_packet, fcio_foldl_or]
  simp only [Bool.false_or, List.any_eq_true, fcioRecordFull, Bool.and_eq_true,
    decide_eq_true_eq, Bool.or_eq_true]

/-! ### C7: range expansion in key lists -/

theorem expandKeyList_no_range (l : List KeyEntry)
    (h : ∀ e ∈ l, e.isRange2 = false) : expandKeyList l = l := by
  induction l with
  | nil => rfl
  | cons e rest ih =>
    have he : e.isRange2 = false := h e (List.mem_cons_self e rest)
    have hrest := ih fun x hx => h x (List.mem_cons_of_mem e hx)
    cases e with
    | int n => simp [expandKeyList, hrest]
    | str s => simp [expandKeyList, hrest]
    | lst l' =>
      match l' with
      | [] => simp [expandKeyList, hrest]
      | [a] => simp [expandKeyList, hrest]
      | [a, b] => simp [KeyEntry.isRange2] at he
      | a :: b :: c :: t => simp [expandKeyList, hrest]

theorem mem_rangeInc (a b x : Int) (hab : a ≤ b) :
    x ∈ rangeInc a b ↔ a ≤ x ∧ x ≤ b := by
  constructor
  · intro hx
    simp only [rangeInc, List.mem_map, List.mem_range] at hx
    obtain ⟨j, hj, rfl⟩ := hx
    omega
  · intro ⟨h1, h2⟩
    simp only [rangeInc, List.mem_map, List.mem_range]
    exact ⟨(x - a).toNat, by omega, by omega⟩

/-- **C7.** In a key list whose other entries are not range shorthands, a
2-element entry `[a, b]` with `a ≤ b` is replaced in place by the explicit
inclusive integer sequence `a, a+1, ..., b` (Python `range(a, b+1)`); all
other entries are kept intact and in order, and the inserted sequence is
exactly the integers between `a` and `b` inclusive. -/
theorem range_entry_expansion (pre post : List KeyEntry) (a b : Int) (hab : a ≤ b)
    (hpre : ∀ e ∈ pre, e.isRange2 = false) (hpost : ∀ e ∈ post, e.isRange2 = false) :
    expandKeyList (pre ++ .lst [a, b] :: post) =
      pre ++ (rangeInc a b).map .int ++ post ∧
    (∀ x : Int, x ∈ rangeInc a b ↔ a ≤ x ∧ x ≤ b) := by
  refine ⟨?_, fun x => mem_rangeInc a b x hab⟩
  induction pre with
  | nil => simp [expandKeyList, expandKeyList_no_range post hpost]
  | cons e pre ih =>
    have he : e.isRange2 = false := hpre e (List.mem_cons_self e pre)
    have hpre' := fun x hx => hpre x (List.mem_cons_of_mem e hx)
    have ihx := ih hpre'
    cases e with
    | int n => simpa [expandKeyList] using ihx
    | str s => simpa [expandKeyList] using ihx
    | lst l' =>
      match l' with
      | [] => simpa [expandKeyList] using ihx
      | [c] => simpa [expandKeyList] using ihx
      | [c, d] => simp [KeyEntry.isRange2] at he
      | c :: d :: f :: t => simpa [expandKeyList] using ihx

/-- **C7, witness.** Concrete instance: `[7, [2,4], "x"]` compiles to
`[7, 2, 3, 4, "x"]`, and `rangeInc 2 4` is the integers in `[2, 4]`. -/
theorem range_entry_expansion_witness :
    expandKeyList ([.int 7] ++ .lst [2, 4] :: [.str "x"]) =
      [.int 7] ++ (rangeInc 2 4).map .int ++ [.str "x"] ∧
    (∀ x : Int, x ∈ rangeInc 2 4 ↔ 2 ≤ x ∧ x ≤ 4) :=
  range_entry_expansion [.int 7] [.str "x"] 2 4 (by decide)
    (by intro e he; fin_cases he; rfl)
    (by intro e he; fin_cases he; rfl)

/-! ### C1: fullness threshold and the flush pass -/

/-- **C1, counterexample.** A buffer of capacity `C = 2` with the default
`fill_safety = 1`, after exactly `C - fill_safety = 1` rows have been
written (`loc = 1`): `is_full()` is still false (`2 - 1 < 1` fails), and a
multiplexer-wide flush pass leaves its cursor at 1, not 0 - contradicting
the claim that fullness is already reported at `loc = C - fill_safety`. -/
theorem claim_full_at_margin_counterexample :
    rbAtMargin.length = 2 ∧ rbAtMargin.fill_safety = 1 ∧
    rbAtMargin.loc = rbAtMargin.length - rbAtMargin.fill_safety ∧
    rbAtMargin.is_full = false ∧
    RawBufferList.clear_full [rbAtMargin] = [rbAtMargin] := by
  decide

/-- **C1, amended.** For a buffer of capacity `C` with the default
`fill_safety = 1`, `is_full()` is true exactly when `loc ≥ C`, i.e. one row
*past* `C - fill_safety`; and once it is full (`C ≤ loc`), the
multiplexer-wide flush pass `clear_full` resets that buffer's cursor to
exactly 0. -/
theorem full_threshold_and_clear_full (rbl : RawBufferList) (rb : RawBuffer)
    (hmem : rb ∈ rbl) (C : Nat)
    (hlg : rb.lgdo = some (.withLen C)) (hfs : rb.fill_safety = 1) :
    (rb.is_full = true ↔ C ≤ rb.loc) ∧
    (C ≤ rb.loc → { rb with loc := 0 } ∈ RawBufferList.clear_full rbl) := by
  have hlen : rb.length = C := by rw [RawBuffer.length, hlg]
  have hiff : rb.is_full = true ↔ C ≤ rb.loc := by
    rw [RawBuffer.is_full, hlen, hfs, decide_eq_true_eq]
    omega
  refine ⟨hiff, fun hloc => ?_⟩
  have hfull : rb.is_full = true := hiff.mpr hloc
  have : (if rb.is_full then { rb with loc := 0 } else rb) ∈
      RawBufferList.clear_full rbl :=
    List.mem_map_of_mem (fun b => if b.is_full then { b with loc := 0 } else b) hmem
  rwa [hfull, if_pos rfl] at this

/-- **C1, witness.** The capacity-2 buffer with `loc = 2` is full, and the
flush pass over the singleton list resets its cursor to 0. -/
theorem full_threshold_and_clear_full_witness :
    rbFull.is_full = true ∧
    { rbFull with loc := 0 } ∈ RawBufferList.clear_full [rbFull] :=
  ⟨(full_threshold_and_clear_full [rbFull] rbFull (by simp) 2 rfl rfl).1.mpr
      (by decide),
    (full_threshold_and_clear_full [rbFull] rbFull (by simp) 2 rfl rfl).2
      (by decide)⟩

/-! ### C8: per-key fanout of templated buffer names -/

theorem rbinfo_set_keylist_self (info : RBInfo) (kl : List KeyEntry)
    (h : info.key_list = some kl) : { info with key_list := some kl } = info := by
  cases info
  dsimp only at h
  subst h
  rfl

theorem foldl_fanout (fmt : String → KeyEntry → String) (name : String)
    (info' : RBInfo) (ks : List KeyEntry) (cfg : List (String × RBInfo))
    (hf : ∀ k ∈ ks, dictLookup cfg (fmt name k) = none)
    (hpi : ks.Pairwise fun k k' => fmt name k ≠ fmt name k') :
    ks.foldl
        (fun c k => dictAssign c (fmt name k) { info' with key_list := some [k] })
        cfg
      = cfg ++ ks.map fun k => (fmt name k, { info' with key_list := some [k] }) := by
  induction ks generalizing cfg with
  | nil => simp
  | cons k ks ih =>
    obtain ⟨hhead, htail⟩ := List.pairwise_cons.mp hpi
    simp only [List.foldl_cons, List.map_cons]
    rw [dictAssign_of_none _ _ _ (hf k (List.mem_cons_self k ks))]
    rw [ih _ ?hf htail]
    · rw [List.append_assoc]
      rfl
    case hf =>
      intro k' hk'
      rw [dictLookup_append_of_none _ _ _ (hf k' (List.mem_cons_of_mem k hk'))]
      simp [dictLookup, hhead k' hk']

/-- **C8.** A buffer group whose name contains the per-key placeholder and
whose expanded, non-wildcard key list is `kl` compiles to exactly one
buffer entry per key: each named `fmt name k` (Python
`name.format(key=k)`), each a copy of the group's settings with an
exclusive singleton key list `[k]`, in key-list order; the original
templated entry is removed. Hypotheses: the key list holds no unexpanded
ranges (range expansion has produced plain keys), and the formatted names
are fresh (distinct from the template and from each other), which is what
"substituting one key into the template" produces for non-degenerate
templates. -/
theorem template_fanout (fmt : String → KeyEntry → String) (name : String)
    (info : RBInfo) (kl : List KeyEntry)
    (hkl : info.key_list = some kl)
    (hname : hasKeyPlaceholder name = true)
    (hnr : ∀ e ∈ kl, e.isRange2 = false)
    (hwild : isWildcardSingleton kl = false)
    (hfresh : ∀ k ∈ kl, fmt name k ≠ name)
    (hpi : kl.Pairwise fun k k' => fmt name k ≠ fmt name k') :
    expand_rblist_dict_names fmt [(name, info)] =
      .ok (kl.map fun k => (fmt name k, { info with key_list := some [k] })) := by
  have hne : name ≠ "" := by
    intro h
    rw [h] at hname
    exact absurd hname (by decide)
  have hlk : dictLookup [(name, info)] name = some info := by simp [dictLookup]
  have hexp : expandKeyList kl = kl := expandKeyList_no_range kl hnr
  have hassign : dictAssign [(name, info)] name info = [(name, info)] := by
    simp [dictAssign]
  rw [expand_rblist_dict_names]
  simp only [List.map_cons, List.map_nil, List.foldlM, bind_pure]
  rw [processName, if_neg hne, hlk]
  simp only [hkl, hexp, rbinfo_set_keylist_self info kl hkl, hassign, hname,
    if_true, hwild, Bool.false_eq_true, if_false]
  rw [foldl_fanout fmt name info kl [(name, info)] ?hf hpi]
  case hf =>
    intro k hk
    simp [dictLookup, Ne.symm (hfresh k hk)]
  rw [Except.ok.injEq, dictPop, List.filter_append]
  have h1 : List.filter (fun p => decide (p.1 ≠ name)) [(name, info)] = [] := by
    simp [List.filter]
  have h2 :
      List.filter (fun p => decide (p.1 ≠ name))
        (kl.map fun k => (fmt name k, { info with key_list := some [k] }))
      = kl.map fun k => (fmt name k, { info with key_list := some [k] }) := by
    rw [List.filter_eq_self]
    intro p hp
    obtain ⟨k, hk, rfl⟩ := List.mem_map.mp hp
    exact decide_eq_true (hfresh k hk)
  rw [h1, h2, List.nil_append]

/-- **C8, witness.** The concrete group `("g\x7bkey\x7d", infoFix)` with key
list `[1, 2]` fans out to the two singleton-key entries `g1`, `g2`. -/
theorem template_fanout_witness :
    expand_rblist_dict_names fmtFix [("g\x7bkey\x7d", infoFix)] =
      .ok ([.int 1, .int 2].map fun k =>
        (fmtFix "g\x7bkey\x7d" k, { infoFix with key_list := some [k] })) :=
  template_fanout fmtFix "g\x7bkey\x7d" infoFix [.int 1, .int 2] rfl (by decide)
    (by intro e he; fin_cases he <;> rfl) (by decide)
    (by intro k hk; fin_cases hk <;> decide) (by decide)

/-! ### C9: unrouted channel keys are skipped and counted -/

/-- **C9.** When `fch_id` has no destination buffer in the keyed buffer
dict, `decode_packet` returns `False` (not buffer-full) without raising,
leaves every buffer untouched (the whole `evt_rbkd` is unchanged, so no row
is written anywhere), increments the per-key skip counter (initializing it
so the first call yields count 1), leaves other keys' counters alone, and
logs the `Skipping channel` diagnostic exactly when the key had not been
seen before. -/
theorem unrouted_key_skipped (p : List Nat) (st : LlamaDecodeState)
    (packet_id fch_id : Nat)
    (h : dictLookup st.rbkd fch_id = none) :
    (LLAMAEventDecoder.decode_packet p st packet_id fch_id).result = .ok false ∧
    (LLAMAEventDecoder.decode_packet p st packet_id fch_id).state.rbkd = st.rbkd ∧
    dictLookup
        (LLAMAEventDecoder.decode_packet p st packet_id fch_id).state.skipped_channels
        fch_id
      = some ((dictLookup st.skipped_channels fch_id).getD 0 + 1) ∧
    (∀ k, k ≠ fch_id →
      dictLookup
          (LLAMAEventDecoder.decode_packet p st packet_id fch_id).state.skipped_channels
          k
        = dictLookup st.skipped_channels k) ∧
    (LLAMAEventDecoder.decode_packet p st packet_id fch_id).logged
      = (if (dictLookup st.skipped_channels fch_id).isNone then [fch_id] else []) := by
  rw [LLAMAEventDecoder.decode_packet, h]
  cases hsk : dictLookup st.skipped_channels fch_id with
  | none =>
    refine ⟨rfl, rfl, ?_, ?_, ?_⟩
    · simp [hsk, dictLookup_dictAssign]
    · intro k hk
      simp [hsk, dictLookup_dictAssign, hk]
    · simp [hsk]
  | some c =>
    refine ⟨rfl, rfl, ?_, ?_, ?_⟩
    · simp [hsk, dictLookup_dictAssign]
    · intro k hk
      simp [hsk, dictLookup_dictAssign, hk]
    · simp [hsk]

/-- **C9, witness.** On the empty routing dict, decoding a packet for
channel 99 returns false, changes no buffer, sets the skip counter to 1 and
logs the channel once. -/
theorem unrouted_key_skipped_witness :
    (LLAMAEventDecoder.decode_packet llamaGoodPacket llamaStEmpty 1 99).result
      = .ok false ∧
    (LLAMAEventDecoder.decode_packet llamaGoodPacket llamaStEmpty 1 99).state.rbkd
      = llamaStEmpty.rbkd ∧
    dictLookup
        (LLAMAEventDecoder.decode_packet llamaGoodPacket llamaStEmpty 1 99).state.skipped_channels
        99
      = some ((dictLookup llamaStEmpty.skipped_channels 99).getD 0 + 1) ∧
    (∀ k, k ≠ 99 →
      dictLookup
          (LLAMAEventDecoder.decode_packet llamaGoodPacket llamaStEmpty 1 99).state.skipped_channels
          k
        = dictLookup llamaStEmpty.skipped_channels k) ∧
    (LLAMAEventDecoder.decode_packet llamaGoodPacket llamaStEmpty 1 99).logged
      = (if (dictLookup llamaStEmpty.skipped_channels 99).isNone then [99] else []) :=
  unrouted_key_skipped llamaGoodPacket llamaStEmpty 1 99 rfl

/-! ### Llama header-stage lemmas: reaching the trailer word -/

theorem sameCursor_trans {a b c : LlamaBuffer} (h1 : SameCursor a b)
    (h2 : SameCursor b c) : SameCursor a c :=
  ⟨h2.1.trans h1.1, h2.2.1.trans h1.2.1, h2.2.2.trans h1.2.2⟩

theorem get?_some_of_lt {α : Type} (l : List α) (i : Nat) (h : i < l.length) :
    ∃ w, l.get? i = some w :=
  ⟨l.get ⟨i, h⟩, List.get?_eq_get h⟩

theorem evtData16_length (ws : List Nat) : (evtData16 ws).length = 2 * ws.length := by
  induction ws with
  | nil => rfl
  | cons w ws ih =>
    simp only [evtData16, List.flatMap_cons, List.length_append, List.length_cons,
      List.length_nil] at ih ⊢
    omega

theorem block1_ok (p evt16 : List Nat) (ii offset : Nat) (buf : LlamaBuffer)
    (h : offset + 7 < p.length) (h5 : 5 < evt16.length) :
    ∃ b', block1 p evt16 ii offset buf = .ok b' (offset + 7) ∧ SameCursor buf b' := by
  obtain ⟨a4, h4⟩ := get?_some_of_lt evt16 4 (by omega)
  obtain ⟨a5, h5'⟩ := get?_some_of_lt evt16 5 h5
  obtain ⟨w1, hw1⟩ := get?_some_of_lt p (offset + 1) (by omega)
  obtain ⟨s1, hs1⟩ := get?_some_of_lt p (offset + 2) (by omega)
  obtain ⟨s2, hs2⟩ := get?_some_of_lt p (offset + 3) (by omega)
  obtain ⟨s3, hs3⟩ := get?_some_of_lt p (offset + 4) (by omega)
  obtain ⟨s4, hs4⟩ := get?_some_of_lt p (offset + 5) (by omega)
  obtain ⟨s5, hs5⟩ := get?_some_of_lt p (offset + 6) (by omega)
  obtain ⟨s6, hs6⟩ := get?_some_of_lt p (offset + 7) (by omega)
  simp only [block1, h4, h5', hw1, hs1, hs2, hs3, hs4, hs5, hs6, withRead]
  exact ⟨_, rfl, ⟨rfl, rfl, rfl⟩⟩

theorem block2_ok (p : List Nat) (ii offset : Nat) (buf : LlamaBuffer)
    (h : offset + 1 < p.length) :
    ∃ b', block2 p ii offset buf = .ok b' (offset + 2) ∧ SameCursor buf b' := by
  obtain ⟨s7, hs7⟩ := get?_some_of_lt p (offset + 0) (by omega)
  obtain ⟨s8, hs8⟩ := get?_some_of_lt p (offset + 1) (by omega)
  simp only [block2, hs7, hs8, withRead]
  exact ⟨_, rfl, ⟨rfl, rfl, rfl⟩⟩

theorem block3_ok (p : List Nat) (ii offset : Nat) (buf : LlamaBuffer)
    (h : offset + 2 < p.length) :
    ∃ b', block3 p ii offset buf = .ok b' (offset + 3) ∧ SameCursor buf b' := by
  obtain ⟨m1, hm1⟩ := get?_some_of_lt p (offset + 0) (by omega)
  obtain ⟨m2, hm2⟩ := get?_some_of_lt p (offset + 1) (by omega)
  obtain ⟨m3, hm3⟩ := get?_some_of_lt p (offset + 2) (by omega)
  simp only [block3, hm1, hm2, hm3, withRead]
  exact ⟨_, rfl, ⟨rfl, rfl, rfl⟩⟩

theorem block4_ok (p : List Nat) (ii offset : Nat) (buf : LlamaBuffer)
    (h : offset + 1 < p.length) :
    ∃ b', block4 p ii offset buf = .ok b' (offset + 2) ∧ SameCursor buf b' := by
  obtain ⟨e1, he1⟩ := get?_some_of_lt p (offset + 0) (by omega)
  obtain ⟨e2, he2⟩ := get?_some_of_lt p (offset + 1) (by omega)
  simp only [block4, he1, he2, withRead]
  exact ⟨_, rfl, ⟨rfl, rfl, rfl⟩⟩

theorem ite_stage_ok {c : Prop} [Decidable c] (blk : StageRes Nat)
    (buf : LlamaBuffer) (off adv : Nat)
    (hc : c → ∃ b', blk = .ok b' (off + adv) ∧ SameCursor buf b') :
    ∃ b' off', (if c then blk else .ok buf off) = .ok b' off' ∧
      SameCursor buf b' ∧ off' = (if c then off + adv else off) := by
  by_cases h : c
  · obtain ⟨b', e, sc⟩ := hc h
    exact ⟨b', off + adv, by rw [if_pos h, e], sc, by rw [if_pos h]⟩
  · exact ⟨buf, off, by rw [if_neg h], ⟨rfl, rfl, rfl⟩, by rw [if_neg h]⟩

theorem llamaBlocks_ok (p evt16 : List Nat) (ii fb : Nat) (buf : LlamaBuffer)
    (hlen : hdrOffsetBits fb < p.length) (h16 : evt16.length = 2 * p.length) :
    ∃ b', llamaBlocks p evt16 ii fb buf = .ok b' (hdrOffsetBits fb) ∧
      SameCursor buf b' := by
  have hge2 : 2 ≤ hdrOffsetBits fb := by
    simp only [hdrOffsetBits]
    split_ifs <;> omega
  obtain ⟨bA, oA, eA, scA, hoA⟩ :=
    ite_stage_ok (c := fb &&& 0x1 ≠ 0) (block1 p evt16 ii 2 buf) buf 2 7 (fun hc =>
      block1_ok p evt16 ii 2 buf
        (by
          have h9 : 9 ≤ hdrOffsetBits fb := by
            simp only [hdrOffsetBits]
            split_ifs <;> omega
          omega)
        (by omega))
  obtain ⟨bB, oB, eB, scB, hoB⟩ :=
    ite_stage_ok (c := fb &&& 0x2 ≠ 0) (block2 p ii oA bA) bA oA 2 (fun hc =>
      block2_ok p ii oA bA
        (by
          have hb : oA + 2 ≤ hdrOffsetBits fb := by
            rw [hoA]
            simp only [hdrOffsetBits]
            split_ifs <;> omega
          omega))
  obtain ⟨bC, oC, eC, scC, hoC⟩ :=
    ite_stage_ok (c := fb &&& 0x4 ≠ 0) (block3 p ii oB bB) bB oB 3 (fun hc =>
      block3_ok p ii oB bB
        (by
          have hb : oB + 3 ≤ hdrOffsetBits fb := by
            rw [hoB, hoA]
            simp only [hdrOffsetBits]
            split_ifs <;> omega
          omega))
  obtain ⟨bD, oD, eD, scD, hoD⟩ :=
    ite_stage_ok (c := fb &&& 0x8 ≠ 0) (block4 p ii oC bC) bC oC 2 (fun hc =>
      block4_ok p ii oC bC
        (by
          have hb : oC + 2 ≤ hdrOffsetBits fb := by
            rw [hoC, hoB, hoA]
            simp only [hdrOffsetBits]
            split_ifs <;> omega
          omega))
  have hfinal : oD = hdrOffsetBits fb := by
    rw [hoD, hoC, hoB, hoA]
    simp only [hdrOffsetBits]
  refine ⟨bD, ?_, sameCursor_trans scA (sameCursor_trans scB
    (sameCursor_trans scC scD))⟩
  rw [llamaBlocks, eA]
  simp only [StageRes.bind]
  rw [eB]
  simp only [StageRes.bind]
  rw [eC]
  simp only [StageRes.bind]
  rw [eD, hfinal]

theorem headD_eq_of_get? (p : List Nat) (w : Nat) (h : p.get? 0 = some w) :
    p.headD 0 = w := by
  cases p with
  | nil => simp at h
  | cons x xs =>
    have hx : x = w := by simpa using h
    simp [hx]

theorem llamaHeaderStage_ok (p : List Nat) (buf0 : LlamaBuffer)
    (packet_id fch_id : Nat) (hlen : hdrOffset p < p.length) :
    ∃ b', llamaHeaderStage p (evtData16 p) buf0 packet_id fch_id
        = .ok b' (hdrOffset p) ∧ SameCursor buf0 b' := by
  have hge2 : 2 ≤ hdrOffset p := by
    rw [hdrOffset, hdrOffset32]
    simp only [hdrOffsetBits]
    split_ifs <;> omega
  obtain ⟨w0, hw0⟩ := get?_some_of_lt p 0 (by omega)
  obtain ⟨w1, hw1⟩ := get?_some_of_lt p 1 (by omega)
  have hhd : hdrOffset p = hdrOffsetBits (w0 &&& 0xf) := by
    rw [hdrOffset, headD_eq_of_get? p w0 hw0, hdrOffset32]
  rw [hhd] at hlen ⊢
  simp only [llamaHeaderStage, hw0, hw1, withRead]
  obtain ⟨b', e, sc⟩ := llamaBlocks_ok p (evtData16 p) buf0.loc (w0 &&& 0xf)
    (((buf0.write "fch_id" buf0.loc (.scalar (fch_id % 4294967296))).write
        "packet_id" buf0.loc (.scalar (packet_id % 4294967296))).write
      "timestamp" buf0.loc
      (.scalar (((((w0 &&& 0xffff0000) <<< 16) % 4294967296) + w1) % 4294967296)))
    hlen (evtData16_length p)
  exact ⟨b', e, sameCursor_trans ⟨rfl, rfl, rfl⟩ sc⟩

/-! ### C2: invalid trailer tag nibbles are rejected -/

/-- **C2.** If the trailer word's tag nibble is neither `0xE` ("no averaged
data follows") nor `0xA` ("averaged data follows"), `decode_packet` raises
the first data-corruption error - fatal to this packet only, since it is
raised before the cursor advance - and the destination buffer's cursor is
unchanged by the call. -/
theorem invalid_trailer_tag_rejected (p : List Nat) (st : LlamaDecodeState)
    (packet_id fch_id : Nat) (buf : LlamaBuffer) (w : Nat)
    (hroute : dictLookup st.rbkd fch_id = some buf)
    (hw : p.get? (hdrOffset p) = some w)
    (h1 : w &&& 0xf0000000 ≠ 0xe0000000)
    (h2 : w &&& 0xf0000000 ≠ 0xa0000000) :
    (LLAMAEventDecoder.decode_packet p st packet_id fch_id).result
      = .error .corruption1 ∧
    LlamaError.corruption1.isCorruption = true ∧
    ∃ buf', dictLookup
        (LLAMAEventDecoder.decode_packet p st packet_id fch_id).state.rbkd fch_id
      = some buf' ∧ buf'.loc = buf.loc := by
  have hlen : hdrOffset p < p.length := by
    by_contra hge
    push_neg at hge
    rw [List.get?_eq_none.mpr hge] at hw
    cases hw
  obtain ⟨bH, eH, scH⟩ := llamaHeaderStage_ok p buf packet_id fch_id hlen
  have hdec : decodeLlamaEvent p buf packet_id fch_id = .err bH .corruption1 := by
    rw [decodeLlamaEvent]
    simp only [eH, StageRes.bind]
    rw [llamaTrailerStage]
    simp only [hw, withRead, if_neg h1, if_neg h2]
  rw [LLAMAEventDecoder.decode_packet, hroute]
  dsimp only
  rw [hdec]
  refine ⟨rfl, rfl, bH, ?_, scH.2.1⟩
  simp [dictLookup_dictAssign]

/-- **C2, witness.** The packet `[0, 0, 0x50000001]` (tag nibble `0x5`)
against the routed channel 7: corruption error, cursor still 0. -/
theorem invalid_trailer_tag_rejected_witness :
    (LLAMAEventDecoder.decode_packet llamaBadTagPacket llamaSt0 1 7).result
      = .error .corruption1 ∧
    LlamaError.corruption1.isCorruption = true ∧
    ∃ buf', dictLookup
        (LLAMAEventDecoder.decode_packet llamaBadTagPacket llamaSt0 1 7).state.rbkd 7
      = some buf' ∧ buf'.loc = llamaBuf10.loc :=
  invalid_trailer_tag_rejected llamaBadTagPacket llamaSt0 1 7 llamaBuf10
    0x50000001 (by decide) (by decide) (by decide) (by decide)

/-! ### C3: the sample-count invariant -/

theorem llamaTailStage_mismatch (p evt16 : List Nat) (ii : Nat) (buf : LlamaBuffer)
    (post raw32 avg32 : Nat)
    (hne : ((2 * raw32 + 2 * avg32 : Nat) : Int)
      ≠ (evt16.length : Int) - ((post * 2 : Nat) : Int)) :
    llamaTailStage p evt16 ii buf post raw32 avg32 0 =
      .err buf (.sizeMismatch (2 * raw32) (2 * avg32)
        ((evt16.length : Int) - ((post * 2 : Nat) : Int))) := by
  simp only [llamaTailStage]
  rw [if_neg (fun h => h rfl), if_pos hne]

theorem llamaTailStage_match (p : List Nat) (ii : Nat) (buf : LlamaBuffer)
    (post raw32 avg32 : Nat)
    (heq : ((2 * raw32 + 2 * avg32 : Nat) : Int)
      = ((evtData16 p).length : Int) - ((post * 2 : Nat) : Int)) :
    ∃ b', llamaTailStage p (evtData16 p) ii buf post raw32 avg32 0
        = .ok b' b'.is_full ∧ b'.loc = buf.loc + 1 := by
  have hlen16 : (evtData16 p).length = 2 * p.length := evtData16_length p
  have harith : post + raw32 + avg32 = p.length := by
    rw [hlen16] at heq
    push_cast at heq
    omega
  simp only [llamaTailStage]
  rw [if_neg (fun h => h rfl), if_neg (fun hne => hne heq)]
  by_cases hr : 2 * raw32 > 0
  · by_cases ha : 2 * avg32 > 0
    · simp only [if_pos hr, if_pos ha]
      rw [if_neg (by omega : ¬(post + raw32 + avg32 ≠ p.length))]
      exact ⟨_, rfl, rfl⟩
    · simp only [if_pos hr, if_neg ha]
      rw [if_neg (by omega : ¬(post + raw32 ≠ p.length))]
      exact ⟨_, rfl, rfl⟩
  · by_cases ha : 2 * avg32 > 0
    · simp only [if_neg hr, if_pos ha]
      rw [if_neg (by omega : ¬(post + avg32 ≠ p.length))]
      exact ⟨_, rfl, rfl⟩
    · simp only [if_neg hr, if_neg ha]
      rw [if_neg (by omega : ¬(post ≠ p.length))]
      exact ⟨_, rfl, rfl⟩

/-- Characterization of `decodeLlamaEvent` on packets accepted past both
trailer-tag checks with the MAW-test flag clear: the sample-count check is
the only remaining rejection (the final internal-consistency raise is
unreachable), and it fires exactly on a declared/remaining length
mismatch. -/
theorem decodeLlamaEvent_sizeCheck (p : List Nat) (buf : LlamaBuffer)
    (pid fid : Nat)
    (hacc : acceptedPastTagChecks p = true)
    (hmaw : mawTestFlagSet p = false) :
    (((declaredLen16 p : Int) ≠ remaining16 p) →
      ∃ b' r a ex, decodeLlamaEvent p buf pid fid
        = .err b' (.sizeMismatch r a ex)) ∧
    (((declaredLen16 p : Int) = remaining16 p) →
      ∃ b' fl, decodeLlamaEvent p buf pid fid = .ok b' fl) := by
  cases hw : p.get? (hdrOffset p) with
  | none =>
    simp only [acceptedPastTagChecks, hw] at hacc
    exact absurd hacc (by decide)
  | some w =>
    have hlen : hdrOffset p < p.length := by
      by_contra hge
      push_neg at hge
      rw [List.get?_eq_none.mpr hge] at hw
      cases hw
    obtain ⟨bH, eH, scH⟩ := llamaHeaderStage_ok p buf pid fid hlen
    have hmaw0 : w &&& 0x08000000 = 0 := by
      rw [mawTestFlagSet, hw] at hmaw
      simpa using hmaw
    have hmawflag : (w &&& 0x08000000) >>> 27 = 0 := by
      rw [hmaw0]
      rfl
    have h16 := evtData16_length p
    have hpre : decodeLlamaEvent p buf pid fid
        = llamaTrailerStage p (evtData16 p) buf.loc bH (hdrOffset p) := by
      rw [decodeLlamaEvent]
      simp only [eH, StageRes.bind]
    by_cases htagE : w &&& 0xf0000000 = 0xe0000000
    · have htagA : w &&& 0xf0000000 ≠ 0xa0000000 := by rw [htagE]; decide
      have hdecl : declaredLen16 p = 2 * (w &&& 0x03ffffff) + 2 * 0 := by
        simp only [declaredLen16, hw]
        rw [if_neg htagA]
      have hrem : remaining16 p = 2 * (p.length : Int) - 2 * ((hdrOffset p : Int) + 1) := by
        simp only [remaining16, postHdrOffset, hw]
        rw [if_neg htagA]
        push_cast
        ring
      have hdec : decodeLlamaEvent p buf pid fid
          = llamaTailStage p (evtData16 p) buf.loc bH (hdrOffset p + 1)
              (w &&& 0x03ffffff) 0 0 := by
        rw [hpre, llamaTrailerStage]
        simp only [hw, withRead]
        rw [if_pos htagE, hmawflag]
      have hcond : (((2 * (w &&& 0x03ffffff) + 2 * 0 : Nat) : Int)
            = ((evtData16 p).length : Int) - (((hdrOffset p + 1) * 2 : Nat) : Int))
          ↔ ((declaredLen16 p : Int) = remaining16 p) := by
        rw [hdecl, hrem, h16]
        push_cast
        constructor <;> intro hx <;> omega
      constructor
      · intro hne
        refine ⟨bH, 2 * (w &&& 0x03ffffff), 2 * 0,
          ((evtData16 p).length : Int) - (((hdrOffset p + 1) * 2 : Nat) : Int), ?_⟩
        rw [hdec]
        exact llamaTailStage_mismatch p (evtData16 p) buf.loc bH (hdrOffset p + 1)
          (w &&& 0x03ffffff) 0 (fun hcontra => hne (hcond.mp hcontra))
      · intro heq
        obtain ⟨b', hT, _⟩ := llamaTailStage_match p buf.loc bH (hdrOffset p + 1)
          (w &&& 0x03ffffff) 0 (hcond.mpr heq)
        exact ⟨b', _, by rw [hdec, hT]⟩
    · have htagA : w &&& 0xf0000000 = 0xa0000000 := by
        simp only [acceptedPastTagChecks, hw, if_neg htagE] at hacc
        by_contra hA
        rw [if_neg hA] at hacc
        exact absurd hacc (by decide)
      cases hw2 : p.get? (hdrOffset p + 1) with
      | none =>
        simp only [acceptedPastTagChecks, hw, if_neg htagE, if_pos htagA, hw2] at hacc
        exact absurd hacc (by decide)
      | some w2 =>
        simp only [acceptedPastTagChecks, hw, if_neg htagE, if_pos htagA, hw2] at hacc
        have htag2 : w2 &&& 0xf0000000 = 0xe0000000 := by
          exact of_decide_eq_true hacc
        have hdecl : declaredLen16 p
            = 2 * (w &&& 0x03ffffff) + 2 * (w2 &&& 0x0000ffff) := by
          simp only [declaredLen16, hw]
          rw [if_pos htagA, hw2]
          rfl
        have hrem : remaining16 p
            = 2 * (p.length : Int) - 2 * ((hdrOffset p : Int) + 2) := by
          simp only [remaining16, postHdrOffset, hw]
          rw [if_pos htagA]
          push_cast
          ring
        have hdec : decodeLlamaEvent p buf pid fid
            = llamaTailStage p (evtData16 p) buf.loc bH (hdrOffset p + 2)
                (w &&& 0x03ffffff) (w2 &&& 0x0000ffff) 0 := by
          rw [hpre, llamaTrailerStage]
          simp only [hw, withRead]
          rw [if_neg htagE, if_pos htagA]
          simp only [hw2, withRead]
          rw [if_neg (fun hne => hne htag2), hmawflag]
        have hcond : (((2 * (w &&& 0x03ffffff) + 2 * (w2 &&& 0x0000ffff) : Nat) : Int)
              = ((evtData16 p).length : Int) - (((hdrOffset p + 2) * 2 : Nat) : Int))
            ↔ ((declaredLen16 p : Int) = remaining16 p) := by
          rw [hdecl, hrem, h16]
          push_cast
          constructor <;> intro hx <;> omega
        constructor
        · intro hne
          refine ⟨bH, 2 * (w &&& 0x03ffffff), 2 * (w2 &&& 0x0000ffff),
            ((evtData16 p).length : Int) - (((hdrOffset p + 2) * 2 : Nat) : Int), ?_⟩
          rw [hdec]
          exact llamaTailStage_mismatch p (evtData16 p) buf.loc bH (hdrOffset p + 2)
            (w &&& 0x03ffffff) (w2 &&& 0x0000ffff)
            (fun hcontra => hne (hcond.mp hcontra))
        · intro heq
          obtain ⟨b', hT, _⟩ := llamaTailStage_match p buf.loc bH (hdrOffset p + 2)
            (w &&& 0x03ffffff) (w2 &&& 0x0000ffff) (hcond.mpr heq)
          exact ⟨b', _, by rw [hdec, hT]⟩

/-- **C3, counterexample.** The packet `[0, 0, 0xE8000001]` passes the
trailer-tag checks (tag `0xE`) and its declared sample count (2 half-words)
differs from the remaining payload (0 half-words), yet `decode_packet` does
not raise a corruption error: because the trailer's MAW-test flag (bit 27)
is set, the distinct unsupported-data error `Cannot handle data with MAW
test data!` is raised first. This refutes the claimed "if and only if" in
its forward direction. -/
theorem size_invariant_counterexample :
    acceptedPastTagChecks llamaMawPacket = true ∧
    mawTestFlagSet llamaMawPacket = true ∧
    (declaredLen16 llamaMawPacket : Int) ≠ remaining16 llamaMawPacket ∧
    (LLAMAEventDecoder.decode_packet llamaMawPacket llamaSt0 1 7).result
      = .error .mawTest ∧
    LlamaError.mawTest.isCorruption = false := by
  refine ⟨by decide, by decide, by decide, ?_, by decide⟩
  decide

/-- **C3, amended.** For every routed event packet accepted past the
trailer-tag checks *whose MAW-test flag is clear*, `decode_packet` raises a
corruption error if and only if the declared raw plus averaged sample
word-counts, each doubled, differ from the number of 16-bit words remaining
in the payload after the header (and the error is then precisely the
sample-count mismatch). Packets with the MAW-test flag set are instead
rejected by a distinct, non-corruption error before the sample-count
check. -/
theorem size_invariant_iff (p : List Nat) (st : LlamaDecodeState)
    (packet_id fch_id : Nat) (buf : LlamaBuffer)
    (hroute : dictLookup st.rbkd fch_id = some buf)
    (hacc : acceptedPastTagChecks p = true)
    (hmaw : mawTestFlagSet p = false) :
    (∃ e, (LLAMAEventDecoder.decode_packet p st packet_id fch_id).result
        = .error e ∧ e.isCorruption = true)
      ↔ (declaredLen16 p : Int) ≠ remaining16 p := by
  obtain ⟨hmis, hmatch⟩ := decodeLlamaEvent_sizeCheck p buf packet_id fch_id hacc hmaw
  constructor
  · rintro ⟨e, he, _⟩
    by_contra hne
    obtain ⟨b', fl, hdec⟩ := hmatch hne
    rw [LLAMAEventDecoder.decode_packet, hroute] at he
    dsimp only at he
    rw [hdec] at he
    exact Except.noConfusion he
  · intro hne
    obtain ⟨b', r, a, ex, hdec⟩ := hmis hne
    refine ⟨.sizeMismatch r a ex, ?_, rfl⟩
    rw [LLAMAEventDecoder.decode_packet, hroute]
    dsimp only
    rw [hdec]

/-- **C3, witness.** The packet `[0, 0, 0xE0000002]` (tag `0xE`, MAW flag
clear, declared raw count 2 words = 4 half-words, but no payload): the
amended iff instantiates, and indeed a corruption error is raised. -/
theorem size_invariant_iff_witness :
    ((∃ e, (LLAMAEventDecoder.decode_packet [0, 0, 0xE0000002] llamaSt0 1 7).result
        = .error e ∧ e.isCorruption = true)
      ↔ (declaredLen16 [0, 0, 0xE0000002] : Int) ≠ remaining16 [0, 0, 0xE0000002]) :=
  size_invariant_iff [0, 0, 0xE0000002] llamaSt0 1 7 llamaBuf10 (by decide)
    (by decide) (by decide)

end Daq2LH5
